import Mathlib

/-!
Verification development for the taggu evaluation core: the dual-mode
iterable abstraction (eager `Sequence` vs lazy `Producer`), the pull-based
stream-adaptor combinators, the `NumberLike` numeric layer, and the
operator/predicate dispatch surface.

Embedding conventions:
* `MetaVal` mirrors `crate::metadata::types::MetaVal` (variants `Nil`, `Str`,
  `Seq`, `Map`, `Int`, `Bul`, `Dec`), with `Decimal` (rust_decimal, an exact
  fixed-point type compared by numeric value) modelled as `Rat` and the
  mapping payload as an association list.
* A producer is modelled by its emission trace: the finite sequence of
  `Result<MetaVal, Error>` items its `next()` yields until the first `None`.
  Every adaptor in `functions/util/stream_adaptor.rs` interacts with its
  upstream solely through `next()`, so each adaptor is embedded as the
  corresponding trace transformer (or an explicit single-`next` step function
  where a claim is about per-pull state).
* Machine integers (`i64`) are modelled as `Int`; no claim involves overflow.
-/

namespace Taggu

/-- Error kinds of `crate::functions::Error` (spec section 7); `sentinel` is
the stand-in test error used by the repository's own test suite. -/
inductive Error where
  | emptySequence
  | emptyProducer
  | notIterable
  | notSequence
  | notMapping
  | notNumeric
  | notBoolean
  | outOfBounds
  | itemNotFound
  | zeroStepSize
  | valueStream
  | sentinel
deriving DecidableEq, Repr

/-- The metadata value type `MetaVal` (variants as in the source: `Nil`,
`Str`, `Seq`, `Map`, `Int`, `Bul`, `Dec`). `Dec` is rust_decimal's exact
decimal, modelled as a rational number since rust_decimal compares and
equates decimals by numeric value. -/
inductive MetaVal where
  | nil
  | str (s : String)
  | seq (l : List MetaVal)
  | map (m : List (String × MetaVal))
  | int (i : Int)
  | bul (b : Bool)
  | dec (d : Rat)

mutual

/-- Structural equality of two `MetaVal`s, the derived `PartialEq`/`Eq`
(with `Dec` compared by numeric value, as rust_decimal does). -/
def MetaVal.beq : MetaVal → MetaVal → Bool
  | .nil, .nil => true
  | .str a, .str b => a == b
  | .seq a, .seq b => beqSeqList a b
  | .map a, .map b => beqMapList a b
  | .int a, .int b => a == b
  | .bul a, .bul b => a == b
  | .dec a, .dec b => a == b
  | _, _ => false

/-- Elementwise equality of two value lists. -/
def beqSeqList : List MetaVal → List MetaVal → Bool
  | [], [] => true
  | a :: as_, b :: bs => MetaVal.beq a b && beqSeqList as_ bs
  | _, _ => false

/-- Elementwise equality of two key-value lists. -/
def beqMapList : List (String × MetaVal) → List (String × MetaVal) → Bool
  | [], [] => true
  | (ka, va) :: as_, (kb, vb) :: bs =>
    ka == kb && MetaVal.beq va vb && beqMapList as_ bs
  | _, _ => false

end

/-- An emission of a producer: one `Result<MetaVal, Error>` item. -/
abbrev Emission := Except Error MetaVal

/-- Ordering of two integers, as `Ord::cmp` on `i64`. -/
def cmpInt (a b : Int) : Ordering :=
  if a < b then .lt else if b < a then .gt else .eq

/-- Ordering of two decimals by numeric value, as rust_decimal's `Ord`. -/
def cmpRat (a b : Rat) : Ordering :=
  if a < b then .lt else if b < a then .gt else .eq

/-- Ordering of two strings, as `Ord::cmp` on `String`. -/
def cmpString (a b : String) : Ordering :=
  if a < b then .lt else if b < a then .gt else .eq

/-- Ordering of two booleans (`false < true`), as `Ord::cmp` on `bool`. -/
def cmpBool (a b : Bool) : Ordering :=
  if !a && b then .lt else if a && !b then .gt else .eq

/-- Ordering of two naturals. -/
def cmpNat (a b : Nat) : Ordering :=
  if a < b then .lt else if b < a then .gt else .eq

/-- Discriminant position of a `MetaVal` variant, in declaration order
(`Nil`, `Str`, `Seq`, `Map`, `Int`, `Bul`, `Dec`), used by the derived
`Ord` when the variants differ. -/
def MetaVal.rank : MetaVal → Nat
  | .nil => 0
  | .str _ => 1
  | .seq _ => 2
  | .map _ => 3
  | .int _ => 4
  | .bul _ => 5
  | .dec _ => 6

mutual

/-- The derived `Ord::cmp` on `MetaVal`: variants compare by declaration
order, equal variants compare payloads lexicographically/recursively. -/
def MetaVal.cmp : MetaVal → MetaVal → Ordering
  | .nil, .nil => .eq
  | .str a, .str b => cmpString a b
  | .seq a, .seq b => cmpSeqList a b
  | .map a, .map b => cmpMapList a b
  | .int a, .int b => cmpInt a b
  | .bul a, .bul b => cmpBool a b
  | .dec a, .dec b => cmpRat a b
  | a, b => cmpNat a.rank b.rank

/-- Lexicographic ordering of two value lists (derived `Ord` on `Vec`). -/
def cmpSeqList : List MetaVal → List MetaVal → Ordering
  | [], [] => .eq
  | [], _ :: _ => .lt
  | _ :: _, [] => .gt
  | a :: as_, b :: bs =>
    match MetaVal.cmp a b with
    | .eq => cmpSeqList as_ bs
    | o => o

/-- Lexicographic ordering of two key-value lists (derived `Ord` on the
mapping payload, keys compared before values). -/
def cmpMapList : List (String × MetaVal) → List (String × MetaVal) → Ordering
  | [], [] => .eq
  | [], _ :: _ => .lt
  | _ :: _, [] => .gt
  | (ka, va) :: as_, (kb, vb) :: bs =>
    match cmpString ka kb with
    | .eq =>
      match MetaVal.cmp va vb with
      | .eq => cmpMapList as_ bs
      | o => o
    | o => o

end

/-- Modelled from the spec: the unifying numeric type `NumberLike` (alias
`Number` in `crate::util`), whose source file `util/number.rs` is not under
`src/`. Spec sections 3 and 4.1: a sum type over `Integer | Decimal`. -/
inductive NumberLike where
  | integer (i : Int)
  | decimal (d : Rat)
deriving DecidableEq, Repr

/-- Exact numeric value of a `NumberLike` (an `i64` converts exactly into the
decimal representation, per spec section 3). -/
def NumberLike.toRat : NumberLike → Rat
  | .integer i => (i : Rat)
  | .decimal d => d

/-- Modelled from the spec: `Number::val_cmp`, comparing an integer and a
decimal by exact value (spec section 3: "comparison between an `Integer` and
a `Decimal` is performed by exact-converting the integer"). -/
def NumberLike.val_cmp (a b : NumberLike) : Ordering :=
  cmpRat a.toRat b.toRat

/-- Modelled from the spec: `NumberLike::val_min`, the value-aware minimum
used by `min_in` (spec section 4.3). -/
def NumberLike.val_min (a b : NumberLike) : NumberLike :=
  if a.val_cmp b = .gt then b else a

/-- Modelled from the spec: `NumberLike::val_max`, the value-aware maximum
used by `max_in` (spec section 4.3). -/
def NumberLike.val_max (a b : NumberLike) : NumberLike :=
  if a.val_cmp b = .lt then b else a

/-- Modelled from the spec: `Number` addition with standard promotion,
"decimal absorbs integer" (spec section 3); pinned by the repository's
`test_sum` cases. -/
def NumberLike.add : NumberLike → NumberLike → NumberLike
  | .integer a, .integer b => .integer (a + b)
  | a, b => .decimal (a.toRat + b.toRat)

/-- Modelled from the spec: `Number` multiplication with standard promotion,
"decimal absorbs integer" (spec section 3); pinned by the repository's
`test_prod` cases. -/
def NumberLike.mul : NumberLike → NumberLike → NumberLike
  | .integer a, .integer b => .integer (a * b)
  | a, b => .decimal (a.toRat * b.toRat)

/-- `TryFrom<MetaVal> for NumberLike`: succeeds only on `Int`/`Dec`, failing
with `NotNumeric` otherwise (conversion shape as in `metadata/value.rs`,
error kind per spec section 4.1). -/
def MetaVal.toNumberLike : MetaVal → Except Error NumberLike
  | .int i => .ok (.integer i)
  | .dec d => .ok (.decimal d)
  | _ => .error .notNumeric

/-! ### Stream adaptors as trace transformers

Each function below transcribes the `next()` implementation of the
corresponding adaptor in `functions/util/stream_adaptor.rs`, with the
upstream represented by its emission trace. -/

/-- `DedupAdaptor::next`, iterated to exhaustion: an upstream error is passed
through (the remembered value is untouched); a value is emitted only when it
differs from the remembered previous emission (`Some(&curr) != self.1`). -/
def dedupRun (last : Option MetaVal) : List Emission → List Emission
  | [] => []
  | .error e :: rest => .error e :: dedupRun last rest
  | .ok v :: rest =>
    match last with
    | some w =>
      if MetaVal.beq w v then dedupRun last rest
      else .ok v :: dedupRun (some v) rest
    | none => .ok v :: dedupRun (some v) rest

/-- Membership of a value in the seen-set of `UniqueAdaptor` (a `HashSet`,
modelled as the list of inserted values; `contains` uses `Eq`). -/
def seenContains (seen : List MetaVal) (v : MetaVal) : Bool :=
  seen.any (fun w => MetaVal.beq w v)

/-- `UniqueAdaptor::next`, iterated to exhaustion: an upstream error is
passed through; a value is emitted only the first time it is seen, and is
then inserted into the seen-set. -/
def uniqueRun (seen : List MetaVal) : List Emission → List Emission
  | [] => []
  | .error e :: rest => .error e :: uniqueRun seen rest
  | .ok v :: rest =>
    if seenContains seen v then uniqueRun seen rest
    else .ok v :: uniqueRun (v :: seen) rest

/-- `ZipAdaptor::next`, iterated to exhaustion: pulls side A first, then
side B; `None` from either side (the `?` operator) ends the stream at once,
discarding whatever the other side already produced; if side A pulled an
error it is emitted (even if side B also erred), else side B's error, else
the 2-element `Sequence` of the two values. -/
def zipRun : List Emission → List Emission → List Emission
  | [], _ => []
  | _ :: _, [] => []
  | ea :: ra, eb :: rb =>
    (match ea, eb with
     | .error e, _ => .error e
     | .ok _, .error e => .error e
     | .ok a, .ok b => .ok (.seq [a, b])) :: zipRun ra rb

/-- One `next()` call of `SkipWhileAdaptor` while the skipping flag is set:
the `loop` in its body. Returns the emission (`none` = end of stream), the
flag after the call, and the remaining upstream. Note that only a `false`
predicate result clears the flag; upstream errors and predicate errors are
emitted with the flag left set. -/
def skipWhileLoop (pred : MetaVal → Except Error Bool) :
    List Emission → Option Emission × Bool × List Emission
  | [] => (none, true, [])
  | .error e :: rest => (some (.error e), true, rest)
  | .ok v :: rest =>
    match pred v with
    | .error e => (some (.error e), true, rest)
    | .ok true => skipWhileLoop pred rest
    | .ok false => (some (.ok v), false, rest)

/-- One `next()` call of `SkipWhileAdaptor` (`self.2` is the skipping flag,
initially `true`): while set, run the skipping loop; once cleared, forward
the upstream untested. -/
def skipWhileNext (pred : MetaVal → Except Error Bool) (flag : Bool)
    (up : List Emission) : Option Emission × Bool × List Emission :=
  if flag then skipWhileLoop pred up
  else
    match up with
    | [] => (none, false, [])
    | e :: rest => (some e, false, rest)

/-- `SkipWhileAdaptor::next` iterated to exhaustion from a set skipping
flag: errors (upstream or predicate) are emitted with skipping still active;
a `true` predicate discards the value; a `false` predicate emits the value
and all further upstream emissions pass through untested. -/
def skipWhileRun (pred : MetaVal → Except Error Bool) :
    List Emission → List Emission
  | [] => []
  | .error e :: rest => .error e :: skipWhileRun pred rest
  | .ok v :: rest =>
    match pred v with
    | .error e => .error e :: skipWhileRun pred rest
    | .ok true => skipWhileRun pred rest
    | .ok false => .ok v :: rest

/-- One `next()` call of `TakeWhileAdaptor` (`self.2` is the taking flag,
initially `true`): a `true` predicate emits the value; a `false` predicate
clears the flag and ends the stream without emitting the value; an upstream
or predicate error is emitted with the flag left set; once the flag is
cleared every call returns `None` without touching the upstream. -/
def takeWhileNext (pred : MetaVal → Except Error Bool) (flag : Bool)
    (up : List Emission) : Option Emission × Bool × List Emission :=
  if flag then
    match up with
    | [] => (none, true, [])
    | .error e :: rest => (some (.error e), true, rest)
    | .ok v :: rest =>
      match pred v with
      | .ok true => (some (.ok v), true, rest)
      | .ok false => (none, false, rest)
      | .error e => (some (.error e), true, rest)
  else (none, false, up)

/-- `TakeWhileAdaptor::next` iterated to exhaustion (flag initially set). -/
def takeWhileRun (pred : MetaVal → Except Error Bool) :
    List Emission → List Emission
  | [] => []
  | .error e :: rest => .error e :: takeWhileRun pred rest
  | .ok v :: rest =>
    match pred v with
    | .ok true => .ok v :: takeWhileRun pred rest
    | .ok false => []
    | .error e => .error e :: takeWhileRun pred rest

/-- One `next()` call of `IntersperseAdaptor` (`self.2` toggles first; when
it becomes `true` a real upstream item is pulled, when it becomes `false` a
clone of the separator is emitted unconditionally). -/
def intersperseNext (sep : MetaVal) (flag : Bool) (up : List Emission) :
    Option Emission × Bool × List Emission :=
  if !flag then
    match up with
    | [] => (none, true, [])
    | e :: rest => (some e, true, rest)
  else (some (.ok sep), false, up)

/-- `IntersperseAdaptor::next` iterated to exhaustion, starting from the
initial flag state `false` of `IntersperseAdaptor::new` when `flag = false`:
the stream ends precisely when a real-item turn finds the upstream
exhausted. -/
def intersperseRun (sep : MetaVal) (flag : Bool) (up : List Emission) :
    List Emission :=
  if !flag then
    match up with
    | [] => []
    | e :: rest => e :: intersperseRun sep true rest
  else .ok sep :: intersperseRun sep false up
termination_by 2 * up.length + (if flag then 1 else 0)
decreasing_by
  all_goals simp_all
  omega

/-- `FilterAdaptor::next` iterated to exhaustion: upstream errors and
predicate errors are emitted; a `true` predicate emits the value, a `false`
one discards it. -/
def filterRun (pred : MetaVal → Except Error Bool) :
    List Emission → List Emission
  | [] => []
  | .error e :: rest => .error e :: filterRun pred rest
  | .ok v :: rest =>
    match pred v with
    | .error e => .error e :: filterRun pred rest
    | .ok true => .ok v :: filterRun pred rest
    | .ok false => filterRun pred rest

/-- `MapAdaptor::next` iterated to exhaustion: upstream errors pass through,
values are replaced by the converter's result (value or error). -/
def mapRun (conv : MetaVal → Except Error MetaVal) :
    List Emission → List Emission
  | [] => []
  | .error e :: rest => .error e :: mapRun conv rest
  | .ok v :: rest => conv v :: mapRun conv rest

/-- `StepByAdaptor::next` iterated to exhaustion (`curr` starts at `n`):
errors are always emitted without advancing the step counter; a value is
emitted when `curr >= n` (resetting `curr` to 1), else discarded with
`curr` incremented. -/
def stepByRun (n : Nat) (curr : Nat) : List Emission → List Emission
  | [] => []
  | .error e :: rest => .error e :: stepByRun n curr rest
  | .ok v :: rest =>
    if n ≤ curr then .ok v :: stepByRun n 1 rest
    else stepByRun n (curr + 1) rest

/-- `SkipAdaptor::next` iterated to exhaustion: the first `n` pulled
positions are discarded, except that an error among them is emitted
immediately (still counting toward the quota); afterwards the upstream
passes through. -/
def skipRun : Nat → List Emission → List Emission
  | 0, up => up
  | _ + 1, [] => []
  | n + 1, .error e :: rest => .error e :: skipRun n rest
  | n + 1, .ok _ :: rest => skipRun n rest

/-- `TakeAdaptor::next` iterated to exhaustion: exactly the first `n`
pulled positions (values and errors alike) are emitted. -/
def takeRun : Nat → List Emission → List Emission
  | 0, _ => []
  | _ + 1, [] => []
  | n + 1, e :: rest => e :: takeRun n rest

/-- `FlattenAdaptor::next` iterated to exhaustion (queue in `self.1`): a
pulled `Seq` has its elements moved onto the queue, which is drained before
the next upstream pull; other emissions pass through. Only one nesting
level is unwrapped. -/
def flattenRun : List Emission → List Emission
  | [] => []
  | .error e :: rest => .error e :: flattenRun rest
  | .ok (.seq s) :: rest => s.map .ok ++ flattenRun rest
  | .ok v :: rest => .ok v :: flattenRun rest

/-- `ChainAdaptor::next` iterated to exhaustion: the first upstream is
exhausted completely, then the switch flag flips permanently to the second. -/
def chainRun (a b : List Emission) : List Emission := a ++ b

/-! ### The dual-mode `IterableLike` abstraction (`functions/util/iterable_like.rs`) -/

/-- `IterableLike`: either a fully materialized `Sequence` of values or a
`Producer` (a stream-adaptor chain head, modelled by its emission trace). -/
inductive IterableLike where
  | sequence (s : List MetaVal)
  | producer (tr : List Emission)

/-- `IterableLike::is_lazy`. -/
def IterableLike.is_lazy : IterableLike → Bool
  | .sequence _ => false
  | .producer _ => true

/-- `IterableLike::is_eager`. -/
def IterableLike.is_eager (il : IterableLike) : Bool :=
  !il.is_lazy

/-- `From<IterableLike> for ValueProducer`: a sequence becomes the fixed
producer over its elements; a producer is passed through. -/
def IterableLike.toTrace : IterableLike → List Emission
  | .sequence s => s.map .ok
  | .producer tr => tr

/-- `Producer::collect::<Result<Vec<_>, _>>()`: all values, or the first
error encountered. -/
def collectTrace : List Emission → Except Error (List MetaVal)
  | [] => .ok []
  | .error e :: _ => .error e
  | .ok v :: rest => (collectTrace rest).map (v :: ·)

/-- The producer arm of `IterableLike::count`: pulls to exhaustion counting
values, propagating the first error. -/
def countTrace : List Emission → Except Error Nat
  | [] => .ok 0
  | .error e :: _ => .error e
  | .ok _ :: rest => (countTrace rest).map (· + 1)

/-- The producer arm of `IterableLike::last`: remembers the most recent
value, propagating the first error; `EmptyProducer` if no value was seen. -/
def lastTrace (acc : Option MetaVal) : List Emission → Except Error MetaVal
  | [] =>
    match acc with
    | some v => .ok v
    | none => .error .emptyProducer
  | .error e :: _ => .error e
  | .ok v :: rest => lastTrace (some v) rest

/-- `IterableLike::collect`. -/
def IterableLike.collect : IterableLike → Except Error (List MetaVal)
  | .sequence s => .ok s
  | .producer tr => collectTrace tr

/-- `IterableLike::count`. -/
def IterableLike.count : IterableLike → Except Error Nat
  | .sequence s => .ok s.length
  | .producer tr => countTrace tr

/-- `IterableLike::first`: head of the sequence (`EmptySequence` if empty)
or first emission of the producer (`EmptyProducer` if none). -/
def IterableLike.first : IterableLike → Except Error MetaVal
  | .sequence [] => .error .emptySequence
  | .sequence (v :: _) => .ok v
  | .producer [] => .error .emptyProducer
  | .producer (e :: _) => e

/-- `IterableLike::last`. -/
def IterableLike.last : IterableLike → Except Error MetaVal
  | .sequence s =>
    match s.getLast? with
    | some v => .ok v
    | none => .error .emptySequence
  | .producer tr => lastTrace none tr

/-- Selector for `IterableLike::min_in_max_in`. -/
inductive MinMax where
  | min
  | max

/-- The fold of `min_in_max_in` after the first item: each emission is
unwrapped, converted to a `NumberLike`, and combined with `val_min`/`val_max`. -/
def minMaxFold (flag : MinMax) (acc : NumberLike) :
    List Emission → Except Error NumberLike
  | [] => .ok acc
  | .error e :: _ => .error e
  | .ok v :: rest =>
    match v.toNumberLike with
    | .error e => .error e
    | .ok nl =>
      minMaxFold flag
        (match flag with
         | .min => acc.val_min nl
         | .max => acc.val_max nl) rest

/-- `IterableLike::min_in_max_in`: converts the iterable into a producer
(choosing `EmptySequence`/`EmptyProducer` as the empty-input error by
representation), seeds from the first item, then folds. -/
def IterableLike.min_in_max_in (il : IterableLike) (flag : MinMax) :
    Except Error NumberLike :=
  let err :=
    match il with
    | .sequence _ => Error.emptySequence
    | .producer _ => Error.emptyProducer
  match il.toTrace with
  | [] => .error err
  | .error e :: _ => .error e
  | .ok v :: rest =>
    match v.toNumberLike with
    | .error e => .error e
    | .ok nl => minMaxFold flag nl rest

/-- `IterableLike::min_in`. -/
def IterableLike.min_in (il : IterableLike) : Except Error NumberLike :=
  il.min_in_max_in .min

/-- `IterableLike::max_in`. -/
def IterableLike.max_in (il : IterableLike) : Except Error NumberLike :=
  il.min_in_max_in .max

/-- Selector for `IterableLike::sum_prod`. -/
inductive SumProd where
  | sum
  | prod

/-- The accumulation loop of `sum_prod`: each emission is unwrapped,
converted to a `NumberLike`, and folded with `+=`/`*=`. -/
def sumProdFold (flag : SumProd) (acc : NumberLike) :
    List Emission → Except Error NumberLike
  | [] => .ok acc
  | .error e :: _ => .error e
  | .ok v :: rest =>
    match v.toNumberLike with
    | .error e => .error e
    | .ok nl =>
      sumProdFold flag
        (match flag with
         | .sum => acc.add nl
         | .prod => acc.mul nl) rest

/-- `IterableLike::sum_prod`: seeds `Integer(0)` for sum and `Integer(1)`
for product, converts the iterable into a producer, and folds. -/
def IterableLike.sum_prod (il : IterableLike) (flag : SumProd) :
    Except Error NumberLike :=
  sumProdFold flag
    (match flag with
     | .sum => .integer 0
     | .prod => .integer 1) il.toTrace

/-- `IterableLike::sum`. -/
def IterableLike.sum (il : IterableLike) : Except Error NumberLike :=
  il.sum_prod .sum

/-- `IterableLike::prod`. -/
def IterableLike.prod (il : IterableLike) : Except Error NumberLike :=
  il.sum_prod .prod

/-- `IterableLike::smart_sort_by`: integers and decimals compare by exact
numeric value (`d.cmp(&i_d)`, reversed when the integer is on the left);
all other pairs fall back to the derived `Ord` on `MetaVal`. -/
def smart_sort_by (a b : MetaVal) : Ordering :=
  match a, b with
  | .int i, .dec d => (cmpRat d (i : Rat)).swap
  | .dec d, .int i => cmpRat d (i : Rat)
  | na, nb => MetaVal.cmp na nb

/-- Insertion step of the stable sort: `x` is placed before the first
element not strictly smaller than it, so comparator-equal elements keep
their input order. -/
def insertBy (c : MetaVal → MetaVal → Ordering) (x : MetaVal) :
    List MetaVal → List MetaVal
  | [] => [x]
  | y :: ys => if c x y = .gt then y :: insertBy c x ys else x :: y :: ys

/-- `Vec::sort_by` with comparator `c`: a stable sort, modelled as stable
insertion sort (Rust's `sort_by` is documented stable). -/
def sortBy (c : MetaVal → MetaVal → Ordering) : List MetaVal → List MetaVal
  | [] => []
  | x :: xs => insertBy c x (sortBy c xs)

/-- Selector for `IterableLike::rev_sort`. -/
inductive RevSort where
  | rev
  | sort

/-- `IterableLike::rev_sort`: collects (propagating the first error), then
reverses in place or sorts with `smart_sort_by`. -/
def IterableLike.rev_sort (il : IterableLike) (flag : RevSort) :
    Except Error (List MetaVal) :=
  il.collect.map fun s =>
    match flag with
    | .rev => s.reverse
    | .sort => sortBy smart_sort_by s

/-- `IterableLike::rev`. -/
def IterableLike.rev (il : IterableLike) : Except Error (List MetaVal) :=
  il.rev_sort .rev

/-- `IterableLike::sort`. -/
def IterableLike.sort (il : IterableLike) : Except Error (List MetaVal) :=
  il.rev_sort .sort

/-- The loop of `all_equal_agnostic` after the first item: returns `false`
on the first item differing from the first one, propagating errors. -/
def allEqualGo (first : MetaVal) : List Emission → Except Error Bool
  | [] => .ok true
  | .error e :: _ => .error e
  | .ok v :: rest =>
    if MetaVal.beq v first then allEqualGo first rest else .ok false

/-- `IterableLike::all_equal_agnostic` over an emission trace: vacuously
true when empty, else every item must equal the first. -/
def allEqualTrace : List Emission → Except Error Bool
  | [] => .ok true
  | .error e :: _ => .error e
  | .ok f :: rest => allEqualGo f rest

/-- `IterableLike::all_equal`: the sequence arm iterates the borrowed list
(`all_equal_s`), the producer arm the owned emissions (`all_equal_p`); both
feed `all_equal_agnostic`. -/
def IterableLike.all_equal : IterableLike → Except Error Bool
  | .sequence s => allEqualTrace (s.map .ok)
  | .producer tr => allEqualTrace tr

/-- `IterableLike::flatten`: eager input is processed through the adaptor
and re-collected (errors abort); lazy input wraps a new adaptor node. -/
def IterableLike.flatten : IterableLike → Except Error IterableLike
  | .sequence s => (collectTrace (flattenRun (s.map .ok))).map .sequence
  | .producer tr => .ok (.producer (flattenRun tr))

/-- `IterableLike::dedup`: representation-preserving, via `DedupAdaptor`. -/
def IterableLike.dedup : IterableLike → Except Error IterableLike
  | .sequence s => (collectTrace (dedupRun none (s.map .ok))).map .sequence
  | .producer tr => .ok (.producer (dedupRun none tr))

/-- `IterableLike::unique`: representation-preserving, via `UniqueAdaptor`. -/
def IterableLike.unique : IterableLike → Except Error IterableLike
  | .sequence s => (collectTrace (uniqueRun [] (s.map .ok))).map .sequence
  | .producer tr => .ok (.producer (uniqueRun [] tr))

/-- The producer arm of `IterableLike::nth`: values are counted, any error
before position `n` is returned immediately, `OutOfBounds` past the end. -/
def nthTrace (n : Nat) : List Emission → Except Error MetaVal
  | [] => .error .outOfBounds
  | .error e :: _ => .error e
  | .ok v :: rest =>
    if n = 0 then .ok v else nthTrace (n - 1) rest

/-- `IterableLike::nth`. -/
def IterableLike.nth : IterableLike → Nat → Except Error MetaVal
  | .sequence s, n =>
    match s.get? n with
    | some v => .ok v
    | none => .error .outOfBounds
  | .producer tr, n => nthTrace n tr

/-- Selector for `IterableLike::all_any`. -/
inductive AllAny where
  | all
  | any

/-- `AllAny::target`: the short-circuiting outcome. -/
def AllAny.target : AllAny → Bool
  | .all => false
  | .any => true

/-- The loop of `all_any`: returns `target` as soon as the predicate yields
it, else the negation after exhaustion; all errors propagate. -/
def allAnyTrace (pred : MetaVal → Except Error Bool) (target : Bool) :
    List Emission → Except Error Bool
  | [] => .ok !target
  | .error e :: _ => .error e
  | .ok v :: rest =>
    match pred v with
    | .error e => .error e
    | .ok b => if b = target then .ok target else allAnyTrace pred target rest

/-- `IterableLike::all_any`. -/
def IterableLike.all_any (il : IterableLike)
    (pred : MetaVal → Except Error Bool) (flag : AllAny) : Except Error Bool :=
  allAnyTrace pred flag.target il.toTrace

/-- `IterableLike::all`. -/
def IterableLike.all (il : IterableLike) (pred : MetaVal → Except Error Bool) :
    Except Error Bool :=
  il.all_any pred .all

/-- `IterableLike::any`. -/
def IterableLike.any (il : IterableLike) (pred : MetaVal → Except Error Bool) :
    Except Error Bool :=
  il.all_any pred .any

/-- The loop of `IterableLike::find`: first value satisfying the predicate;
stream and predicate errors propagate; `ItemNotFound` after exhaustion. -/
def findTrace (pred : MetaVal → Except Error Bool) :
    List Emission → Except Error MetaVal
  | [] => .error .itemNotFound
  | .error e :: _ => .error e
  | .ok v :: rest =>
    match pred v with
    | .error e => .error e
    | .ok true => .ok v
    | .ok false => findTrace pred rest

/-- `IterableLike::find`. -/
def IterableLike.find (il : IterableLike)
    (pred : MetaVal → Except Error Bool) : Except Error MetaVal :=
  findTrace pred il.toTrace

/-- The loop of `IterableLike::position` with its running index. -/
def positionTrace (pred : MetaVal → Except Error Bool) (i : Nat) :
    List Emission → Except Error Nat
  | [] => .error .itemNotFound
  | .error e :: _ => .error e
  | .ok v :: rest =>
    match pred v with
    | .error e => .error e
    | .ok true => .ok i
    | .ok false => positionTrace pred (i + 1) rest

/-- `IterableLike::position`. -/
def IterableLike.position (il : IterableLike)
    (pred : MetaVal → Except Error Bool) : Except Error Nat :=
  positionTrace pred 0 il.toTrace

/-- `IterableLike::filter`: representation-preserving, via `FilterAdaptor`. -/
def IterableLike.filter (il : IterableLike)
    (pred : MetaVal → Except Error Bool) : Except Error IterableLike :=
  match il with
  | .sequence s => (collectTrace (filterRun pred (s.map .ok))).map .sequence
  | .producer tr => .ok (.producer (filterRun pred tr))

/-- The renamed `IterableLike::map`: representation-preserving, via
`MapAdaptor`. -/
def IterableLike.mapConv (il : IterableLike)
    (conv : MetaVal → Except Error MetaVal) : Except Error IterableLike :=
  match il with
  | .sequence s => (collectTrace (mapRun conv (s.map .ok))).map .sequence
  | .producer tr => .ok (.producer (mapRun conv tr))

/-- `IterableLike::step_by`: fails with `ZeroStepSize` at construction when
the step is zero; otherwise representation-preserving via `StepByAdaptor`
(whose counter starts at `n`). -/
def IterableLike.step_by (il : IterableLike) (n : Nat) :
    Except Error IterableLike :=
  if n = 0 then .error .zeroStepSize
  else
    match il with
    | .sequence s => (collectTrace (stepByRun n n (s.map .ok))).map .sequence
    | .producer tr => .ok (.producer (stepByRun n n tr))

/-- `IterableLike::chain`: two eager operands are concatenated in place;
any other combination becomes a lazy `ChainAdaptor`. -/
def IterableLike.chain : IterableLike → IterableLike → IterableLike
  | .sequence a, .sequence b => .sequence (a ++ b)
  | a, b => .producer (chainRun a.toTrace b.toTrace)

/-- `IterableLike::zip`: the result is re-collected (eager) only when both
operands were eager; otherwise it stays a lazy `ZipAdaptor`. -/
def IterableLike.zip (a b : IterableLike) : Except Error IterableLike :=
  let collect_after := a.is_eager && b.is_eager
  let tr := zipRun a.toTrace b.toTrace
  if collect_after then (collectTrace tr).map .sequence
  else .ok (.producer tr)

/-- `IterableLike::skip`: the eager arm slices the materialized list
(`split_off`, empty when `n` is at least the length); the lazy arm wraps a
`SkipAdaptor`. -/
def IterableLike.skip : IterableLike → Nat → IterableLike
  | .sequence s, n =>
    if s.length ≤ n then .sequence [] else .sequence (s.drop n)
  | .producer tr, n => .producer (skipRun n tr)

/-- `IterableLike::take`: the eager arm truncates the materialized list;
the lazy arm wraps a `TakeAdaptor`. -/
def IterableLike.take : IterableLike → Nat → IterableLike
  | .sequence s, n => .sequence (s.take n)
  | .producer tr, n => .producer (takeRun n tr)

/-- `IterableLike::skip_while`: the input is converted into a producer and
wrapped in a `SkipWhileAdaptor`; the result is re-collected exactly when
the input was eager (`collect_after = self.is_eager()`). -/
def IterableLike.skip_while (il : IterableLike)
    (pred : MetaVal → Except Error Bool) : Except Error IterableLike :=
  let collect_after := il.is_eager
  let tr := skipWhileRun pred il.toTrace
  if collect_after then (collectTrace tr).map .sequence
  else .ok (.producer tr)

/-- `IterableLike::take_while`: the input is converted into a producer and
wrapped in a `TakeWhileAdaptor`; the result is re-collected exactly when
the input was eager (`collect_after = self.is_eager()`). -/
def IterableLike.take_while (il : IterableLike)
    (pred : MetaVal → Except Error Bool) : Except Error IterableLike :=
  let collect_after := il.is_eager
  let tr := takeWhileRun pred il.toTrace
  if collect_after then (collectTrace tr).map .sequence
  else .ok (.producer tr)

/-! ### The operator / predicate layer
(`scripting/expr/op/op2.rs` and `updated_scripting/ops/predicate.rs`) -/

/-- `bool::try_from(&MetaVal)` with the conversion error mapped to
`NotBoolean`, as done in `Predicate::test`. -/
def metaValToBool : MetaVal → Except Error Bool
  | .bul b => .ok b
  | _ => .error .notBoolean

/-- The `Predicate` tree of `updated_scripting/ops/predicate.rs`
(`Number` is the `NumberLike` sum type; `MetaKey` modelled as a string). -/
inductive Predicate where
  | allEqual
  | isEmpty
  | not
  | all (p : Predicate)
  | any (p : Predicate)
  | and (b : Bool)
  | or (b : Bool)
  | xor (b : Bool)
  | eq (n : NumberLike)
  | ne (n : NumberLike)
  | lt (n : NumberLike)
  | le (n : NumberLike)
  | gt (n : NumberLike)
  | ge (n : NumberLike)
  | hasKeyA (k : String)
  | hasKeyB (m : List (String × MetaVal))

mutual

/-- `Predicate::test`: validates the value per arm and dispatches.
Each comparison arm `Eq..Ge` converts the value to a `Number` (failing with
`NotNumeric`) and compares via `val_cmp` (`Le` is "not Greater", `Ge` is
"not Less"). The iterable arms convert via the updated scripting
`IterableLike::try_from(&MetaVal)` (module absent from `src/`; modelled
from the spec as accepting exactly `Seq`, failing `NotIterable`). The
`HasKey_B` variant falls into the catch-all `_ => Ok(false)` arm. -/
def Predicate.test : Predicate → MetaVal → Except Error Bool
  | .allEqual, mv =>
    match mv with
    | .seq s => allEqualTrace (s.map .ok)
    | _ => .error .notIterable
  | .isEmpty, mv =>
    match mv with
    | .seq s => .ok s.isEmpty
    | _ => .error .notIterable
  | .not, mv => (metaValToBool mv).map (!·)
  | .all p, mv =>
    match mv with
    | .seq s => testAllList p s
    | _ => .error .notIterable
  | .any p, mv =>
    match mv with
    | .seq s => testAnyList p s
    | _ => .error .notIterable
  | .and b, mv => (metaValToBool mv).map (· && b)
  | .or b, mv => (metaValToBool mv).map (· || b)
  | .xor b, mv => (metaValToBool mv).map (fun a => a != b)
  | .eq n, mv => (MetaVal.toNumberLike mv).map (fun m => m.val_cmp n == Ordering.eq)
  | .ne n, mv => (MetaVal.toNumberLike mv).map (fun m => m.val_cmp n != Ordering.eq)
  | .lt n, mv => (MetaVal.toNumberLike mv).map (fun m => m.val_cmp n == Ordering.lt)
  | .le n, mv => (MetaVal.toNumberLike mv).map (fun m => m.val_cmp n != Ordering.gt)
  | .gt n, mv => (MetaVal.toNumberLike mv).map (fun m => m.val_cmp n == Ordering.gt)
  | .ge n, mv => (MetaVal.toNumberLike mv).map (fun m => m.val_cmp n != Ordering.lt)
  | .hasKeyA k, mv =>
    match mv with
    | .map m => .ok (m.any (fun kv => kv.1 == k))
    | _ => .error .notMapping
  | .hasKeyB _, _ => .ok false

/-- The `All(sub)` loop of `Predicate::test`: tests the sub-predicate
against each element, short-circuiting on `false`, propagating errors. -/
def testAllList (p : Predicate) : List MetaVal → Except Error Bool
  | [] => .ok true
  | v :: rest =>
    match p.test v with
    | .error e => .error e
    | .ok false => .ok false
    | .ok true => testAllList p rest

/-- The `Any(sub)` loop of `Predicate::test`: tests the sub-predicate
against each element, short-circuiting on `true`, propagating errors. -/
def testAnyList (p : Predicate) : List MetaVal → Except Error Bool
  | [] => .ok false
  | v :: rest =>
    match p.test v with
    | .error e => .error e
    | .ok true => .ok true
    | .ok false => testAnyList p rest

end

/-- Modelled from the spec: the scripting operand type `Arg`
(`scripting/expr/arg.rs` is not under `src/`). Spec section 6: an operand
is a value, a producer, or one of the function-valued predicate/converter
operands supplied by the expression evaluator. -/
inductive Arg where
  | value (mv : MetaVal)
  | producer (tr : List Emission)
  | uPred (p : MetaVal → Except Error Bool)
  | uConv (c : MetaVal → Except Error MetaVal)

/-- `TryFrom<Arg> for IterableLike` (shape as the `TryFrom<Operand>` impl
in `iterable_like.rs`): a `Seq` value or a producer, else `NotIterable`. -/
def argToIterable : Arg → Except Error IterableLike
  | .value (.seq s) => .ok (.sequence s)
  | .producer tr => .ok (.producer tr)
  | _ => .error .notIterable

/-- Modelled from the spec: the `Arg` to `usize` conversion used by
`Nth`/`StepBy`/`Skip`/`Take` — a non-negative integer value; the failure
kind (`NotNumeric` here) is not pinned by the spec and unused by claims. -/
def argToUsize : Arg → Except Error Nat
  | .value (.int i) => if 0 ≤ i then .ok i.toNat else .error .notNumeric
  | _ => .error .notNumeric

/-- Modelled from the spec: the `Arg` to unary-predicate conversion; the
failure kind is not pinned by the spec and unused by claims. -/
def argToPred : Arg → Except Error (MetaVal → Except Error Bool)
  | .uPred p => .ok p
  | _ => .error .notIterable

/-- Modelled from the spec: the `Arg` to unary-converter conversion; the
failure kind is not pinned by the spec and unused by claims. -/
def argToConv : Arg → Except Error (MetaVal → Except Error MetaVal)
  | .uConv c => .ok c
  | _ => .error .notIterable

/-- Modelled from the spec: the `Arg`/`Expr` to `bool` conversion used by
the boolean operators, failing with `NotBoolean` on non-booleans. -/
def argToBool : Arg → Except Error Bool
  | .value (.bul b) => .ok b
  | _ => .error .notBoolean

/-- `From<IterableLike> for Operand`/`Arg`: a sequence becomes a `Seq`
value, a producer stays a producer. -/
def argOfIterable : IterableLike → Arg
  | .sequence s => .value (.seq s)
  | .producer tr => .producer tr

/-- The binary operator enum `Op` of `scripting/expr/op/op2.rs`. -/
inductive Op where
  | nth
  | all
  | any
  | find
  | position
  | filter
  | map
  | stepBy
  | chain
  | zip
  | skip
  | take
  | skipWhile
  | takeWhile
  | and
  | or
  | xor
  | eq
  | ne
  | lt
  | le
  | gt
  | ge
deriving DecidableEq, Repr

/-- `Op::process`: each iterable operator converts its left operand into an
`IterableLike` and dispatches; `And`/`Or`/`Xor` convert both operands to
booleans; the comparison operators `Eq`..`Ge` are handled by the final
catch-all arm `_ => Ok(Arg::Value(MetaVal::Nil))`. -/
def Op.process (op : Op) (a b : Arg) : Except Error Arg :=
  match op with
  | .nth => do
    let il ← argToIterable a
    let n ← argToUsize b
    (il.nth n).map .value
  | .all => do
    let il ← argToIterable a
    let p ← argToPred b
    (il.all p).map (fun r => .value (.bul r))
  | .any => do
    let il ← argToIterable a
    let p ← argToPred b
    (il.any p).map (fun r => .value (.bul r))
  | .find => do
    let il ← argToIterable a
    let p ← argToPred b
    (il.find p).map .value
  | .position => do
    let il ← argToIterable a
    let p ← argToPred b
    (il.position p).map (fun i => .value (.int i))
  | .filter => do
    let il ← argToIterable a
    let p ← argToPred b
    (il.filter p).map argOfIterable
  | .map => do
    let il ← argToIterable a
    let c ← argToConv b
    (il.mapConv c).map argOfIterable
  | .stepBy => do
    let il ← argToIterable a
    let n ← argToUsize b
    (il.step_by n).map argOfIterable
  | .chain => do
    let il ← argToIterable a
    let other ← argToIterable b
    .ok (argOfIterable (il.chain other))
  | .zip => do
    let il ← argToIterable a
    let other ← argToIterable b
    (il.zip other).map argOfIterable
  | .skip => do
    let il ← argToIterable a
    let n ← argToUsize b
    .ok (argOfIterable (il.skip n))
  | .take => do
    let il ← argToIterable a
    let n ← argToUsize b
    .ok (argOfIterable (il.take n))
  | .skipWhile => do
    let il ← argToIterable a
    let p ← argToPred b
    (il.skip_while p).map argOfIterable
  | .takeWhile => do
    let il ← argToIterable a
    let p ← argToPred b
    (il.take_while p).map argOfIterable
  | .and => do
    let x ← argToBool a
    if x then (argToBool b).map (fun y => .value (.bul y))
    else .ok (.value (.bul false))
  | .or => do
    let x ← argToBool a
    if x then .ok (.value (.bul true))
    else (argToBool b).map (fun y => .value (.bul y))
  | .xor => do
    let x ← argToBool a
    let y ← argToBool b
    .ok (.value (.bul (x != y)))
  | .eq | .ne | .lt | .le | .gt | .ge => .ok (.value .nil)

/-! ### Concrete predicate used by the repository's test suite -/

/-- The test helper `is_lt_4_int` of `iterable_like.rs`: true iff the value
is an integer less than 4, `NotNumeric` otherwise. -/
def is_lt_4_int : MetaVal → Except Error Bool
  | .int i => .ok (decide (i < 4))
  | _ => .error .notNumeric

/-! ### Shared lemmas -/

/-- Collecting a trace of pure values yields exactly those values. -/
theorem collectTrace_map_ok (s : List MetaVal) :
    collectTrace (s.map .ok) = .ok s := by
  induction s with
  | nil => rfl
  | cons v rest ih => simp [collectTrace, ih, Except.map]

/-- Counting a trace of pure values yields its length. -/
theorem countTrace_map_ok (s : List MetaVal) :
    countTrace (s.map .ok) = .ok s.length := by
  induction s with
  | nil => rfl
  | cons v rest ih => simp [countTrace, ih, Except.map]

/-- The last-value fold over a trace of pure values returns the last value,
falling back to the accumulator (then `EmptyProducer`) when there is none. -/
theorem lastTrace_map_ok (s : List MetaVal) : ∀ acc : Option MetaVal,
    lastTrace acc (s.map .ok) =
      match s.getLast? with
      | some v => .ok v
      | none =>
        match acc with
        | some v => .ok v
        | none => .error .emptyProducer := by
  induction s with
  | nil => intro acc; rfl
  | cons v rest ih =>
    intro acc
    simp only [List.map, lastTrace, ih (some v), List.getLast?_cons]
    cases h : rest.getLast? <;> simp [h]

/-- One real-pull unfolding of the intersperse iteration. -/
theorem intersperseRun_false_nil (sep : MetaVal) :
    intersperseRun sep false [] = [] := by
  rw [intersperseRun.eq_def]
  simp

/-- A real pull followed by the unconditional separator emission. -/
theorem intersperseRun_false_cons (sep : MetaVal) (e : Emission)
    (rest : List Emission) :
    intersperseRun sep false (e :: rest) =
      e :: .ok sep :: intersperseRun sep false rest := by
  rw [intersperseRun.eq_def]
  simp only [Bool.not_false, if_pos, List.cons.injEq, true_and]
  rw [intersperseRun.eq_def]
  simp

/-! ### Claim C3 (Zip adaptor) -/

/-- Claim C3, counterexample: with the left side yielding an error and the
right side exhausted, `ZipAdaptor` ends the stream (the `?` on the right
pull discards the already-pulled error) instead of emitting the error as
the claim states. -/
theorem C3_counterexample :
    zipRun [.error .sentinel] [] = [] ∧
    zipRun [.error .sentinel] [] ≠ [.error .sentinel] :=
  ⟨rfl, fun h => List.noConfusion h⟩

/-- Claim C3 (amended): each step pulls the left side first, and only if it
yielded, the right side; the stream ends as soon as either side is
exhausted, discarding the other side's already-pulled value or error at
that step; when both sides yield, a left error is emitted (even if the
right also erred), else a right error, else the 2-element `Sequence`. -/
theorem C3_zip_amended (a b ra rb : List Emission) (x y : MetaVal)
    (e : Error) (eb : Emission) :
    zipRun [] b = [] ∧
    zipRun a [] = [] ∧
    zipRun (.ok x :: ra) (.ok y :: rb) = .ok (.seq [x, y]) :: zipRun ra rb ∧
    zipRun (.error e :: ra) (eb :: rb) = .error e :: zipRun ra rb ∧
    zipRun (.ok x :: ra) (.error e :: rb) = .error e :: zipRun ra rb := by
  have h2 : zipRun a [] = [] := by cases a <;> rfl
  have h4 : zipRun (.error e :: ra) (eb :: rb) = .error e :: zipRun ra rb := by
    cases eb <;> rfl
  exact ⟨rfl, h2, rfl, h4, rfl⟩

/-! ### Claim C9 (Intersperse adaptor) -/

/-- Claim C9: over an upstream of `n` values, collecting the interspersed
stream yields exactly `2 * n` emissions — each value followed by a clone of
the separator, including a trailing separator — and an empty upstream
yields no emissions at all; the stream ends when a real-item turn (toggle
flag `false`) finds the upstream exhausted. -/
theorem C9_intersperse (sep : MetaVal) (l : List MetaVal) :
    intersperseRun sep false (l.map .ok) =
      l.flatMap (fun v => [.ok v, .ok sep]) ∧
    (intersperseRun sep false (l.map .ok)).length = 2 * l.length ∧
    intersperseRun sep false [] = [] ∧
    intersperseNext sep false [] = (none, true, []) := by
  have h : intersperseRun sep false (l.map .ok) =
      l.flatMap (fun v => [.ok v, .ok sep]) := by
    induction l with
    | nil => simp [intersperseRun_false_nil]
    | cons v rest ih => simp [intersperseRun_false_cons, ih]
  refine ⟨h, ?_, intersperseRun_false_nil sep, rfl⟩
  rw [h]
  clear h
  induction l with
  | nil => rfl
  | cons v rest ih =>
    simp only [List.flatMap_cons, List.length_append, List.length_cons,
      List.length_nil, List.length_cons]
    omega

/-! ### Claim C7 (TakeWhile adaptor) -/

/-- Claim C7: the first `false` predicate result clears the taking flag and
ends the stream without emitting the failing item; once the flag is
cleared, every further pull returns `None` with the state unchanged (so no
later pull ever yields an item); a predicate error is emitted as an item
with the flag left set, and a subsequent pull can still yield values. -/
theorem C7_take_while (pred : MetaVal → Except Error Bool) (v : MetaVal)
    (rest up : List Emission) (e : Error) :
    (pred v = .ok false →
      takeWhileNext pred true (.ok v :: rest) = (none, false, rest)) ∧
    takeWhileNext pred false up = (none, false, up) ∧
    (pred v = .error e →
      takeWhileNext pred true (.ok v :: rest) = (some (.error e), true, rest)) ∧
    (pred v = .ok true →
      takeWhileNext pred true (.ok v :: rest) = (some (.ok v), true, rest)) := by
  refine ⟨fun h => ?_, rfl, fun h => ?_, fun h => ?_⟩ <;>
    simp [takeWhileNext, h]

/-- Claim C7, witness: the concrete transitions at `is_lt_4_int`. -/
theorem C7_take_while_witness :
    takeWhileNext is_lt_4_int true [.ok (.int 5)] = (none, false, []) ∧
    takeWhileNext is_lt_4_int false [.ok (.int 1)] = (none, false, [.ok (.int 1)]) ∧
    takeWhileNext is_lt_4_int true [.ok (.str "a")] = (some (.error .notNumeric), true, []) ∧
    takeWhileNext is_lt_4_int true [.ok (.int 1)] = (some (.ok (.int 1)), true, []) :=
  ⟨(C7_take_while is_lt_4_int (.int 5) [] [] .notNumeric).1 rfl,
   (C7_take_while is_lt_4_int (.int 1) [] [.ok (.int 1)] .notNumeric).2.1,
   (C7_take_while is_lt_4_int (.str "a") [] [] .notNumeric).2.2.1 rfl,
   (C7_take_while is_lt_4_int (.int 1) [] [] .notNumeric).2.2.2 rfl⟩

/-! ### Claim C2 (SkipWhile adaptor) -/

/-- Claim C2, counterexample: on upstream `[Str "a", Int 1, Int 4]` with
predicate `is_lt_4_int`, the predicate error on `Str "a"` is emitted with
the skipping flag still `true` (not cleared, contrary to the claim), and
the item `Int 1` pulled after the error is tested and skipped rather than
passing through untested: the next emission is `Int 4`. -/
theorem C2_counterexample :
    skipWhileNext is_lt_4_int true [.ok (.str "a"), .ok (.int 1), .ok (.int 4)]
      = (some (.error .notNumeric), true, [.ok (.int 1), .ok (.int 4)]) ∧
    (skipWhileNext is_lt_4_int true
      [.ok (.str "a"), .ok (.int 1), .ok (.int 4)]).2.1 ≠ false ∧
    skipWhileNext is_lt_4_int true [.ok (.int 1), .ok (.int 4)]
      = (some (.ok (.int 4)), false, []) ∧
    skipWhileRun is_lt_4_int [.ok (.str "a"), .ok (.int 1), .ok (.int 4)]
      = [.error .notNumeric, .ok (.int 4)] :=
  ⟨rfl, by decide, rfl, rfl⟩

/-- Claim C2 (amended): while skipping is active, a predicate error on a
pulled value is emitted once but skipping remains active (the flag is not
cleared), so subsequent pulls keep testing and skipping; only a `false`
predicate result clears the flag (emitting that item); once the flag is
cleared, every emission passes through untested. -/
theorem C2_skip_while_amended (pred : MetaVal → Except Error Bool)
    (v : MetaVal) (rest r : List Emission) (e : Error) (eu : Emission) :
    (pred v = .error e →
      skipWhileNext pred true (.ok v :: rest) = (some (.error e), true, rest)) ∧
    (pred v = .ok false →
      skipWhileNext pred true (.ok v :: rest) = (some (.ok v), false, rest)) ∧
    (pred v = .ok true →
      skipWhileNext pred true (.ok v :: rest) = skipWhileNext pred true rest) ∧
    skipWhileNext pred false (eu :: r) = (some eu, false, r) ∧
    skipWhileNext pred false [] = (none, false, []) := by
  refine ⟨fun h => ?_, fun h => ?_, fun h => ?_, rfl, rfl⟩ <;>
    simp [skipWhileNext, skipWhileLoop, h]

/-- Claim C2 (amended), witness: the concrete transitions at `is_lt_4_int`. -/
theorem C2_skip_while_amended_witness :
    skipWhileNext is_lt_4_int true [.ok (.str "a")]
      = (some (.error .notNumeric), true, []) ∧
    skipWhileNext is_lt_4_int true [.ok (.int 5)]
      = (some (.ok (.int 5)), false, []) ∧
    skipWhileNext is_lt_4_int true [.ok (.int 1)]
      = skipWhileNext is_lt_4_int true [] :=
  ⟨(C2_skip_while_amended is_lt_4_int (.str "a") [] [] .notNumeric (.ok .nil)).1 rfl,
   (C2_skip_while_amended is_lt_4_int (.int 5) [] [] .notNumeric (.ok .nil)).2.1 rfl,
   (C2_skip_while_amended is_lt_4_int (.int 1) [] [] .notNumeric (.ok .nil)).2.2.1 rfl⟩

/-! ### Claim C4 (skip_while / take_while eagerness) -/

/-- Claim C4, counterexample: a lazy input to `skip_while`/`take_while`
yields a lazy `Producer` result, not the eager result the claim states. -/
theorem C4_counterexample :
    IterableLike.skip_while (.producer [.ok (.int 1)]) is_lt_4_int
      = .ok (.producer []) ∧
    IterableLike.take_while (.producer [.ok (.int 5)]) is_lt_4_int
      = .ok (.producer []) ∧
    IterableLike.is_lazy (.producer []) = true :=
  ⟨rfl, rfl, rfl⟩

/-- Claim C4 (amended): `skip_while`/`take_while` preserve the input's
representation — the result is re-collected (eager) exactly when the input
was eager (`collect_after = self.is_eager()`), and a lazy input yields a
lazy `Producer` wrapping the corresponding adaptor. -/
theorem C4_eagerness_amended (il : IterableLike)
    (pred : MetaVal → Except Error Bool) :
    (∀ out, il.skip_while pred = .ok out → out.is_lazy = il.is_lazy) ∧
    (∀ out, il.take_while pred = .ok out → out.is_lazy = il.is_lazy) ∧
    (il.is_lazy = true →
      il.skip_while pred = .ok (.producer (skipWhileRun pred il.toTrace)) ∧
      il.take_while pred = .ok (.producer (takeWhileRun pred il.toTrace))) := by
  cases il with
  | sequence s =>
    refine ⟨?_, ?_, fun h => by simp [IterableLike.is_lazy] at h⟩ <;>
    · intro out h
      simp only [IterableLike.skip_while, IterableLike.take_while,
        IterableLike.is_eager, IterableLike.is_lazy, IterableLike.toTrace,
        Bool.not_false, if_pos] at h
      cases hc : collectTrace (skipWhileRun pred (s.map .ok)) <;>
      cases hc' : collectTrace (takeWhileRun pred (s.map .ok)) <;>
        simp_all [Except.map] <;>
        simp [← h, IterableLike.is_lazy]
  | producer tr =>
    exact ⟨fun out h => by
        simp only [IterableLike.skip_while, IterableLike.is_eager,
          IterableLike.is_lazy, IterableLike.toTrace, Bool.not_true,
          if_neg, Bool.false_eq_true, reduceIte, Except.ok.injEq] at h
        simp [← h, IterableLike.is_lazy],
      fun out h => by
        simp only [IterableLike.take_while, IterableLike.is_eager,
          IterableLike.is_lazy, IterableLike.toTrace, Bool.not_true,
          if_neg, Bool.false_eq_true, reduceIte, Except.ok.injEq] at h
        simp [← h, IterableLike.is_lazy],
      fun _ => ⟨rfl, rfl⟩⟩

/-- Claim C4 (amended), witness: the eager and lazy instances at concrete
inputs. -/
theorem C4_eagerness_amended_witness :
    IterableLike.is_lazy (.producer []) =
      IterableLike.is_lazy (.producer [.ok (.int 1)]) ∧
    IterableLike.skip_while (.producer [.ok (.int 1)]) is_lt_4_int
      = .ok (.producer (skipWhileRun is_lt_4_int [.ok (.int 1)])) ∧
    IterableLike.take_while (.producer [.ok (.int 1)]) is_lt_4_int
      = .ok (.producer (takeWhileRun is_lt_4_int [.ok (.int 1)])) :=
  ⟨(C4_eagerness_amended (.producer [.ok (.int 1)]) is_lt_4_int).1
      (.producer []) rfl,
   ((C4_eagerness_amended (.producer [.ok (.int 1)]) is_lt_4_int).2.2 rfl).1,
   ((C4_eagerness_amended (.producer [.ok (.int 1)]) is_lt_4_int).2.2 rfl).2⟩

/-! ### Claim C5 (comparison operators in Op::process) -/

/-- Claim C5, counterexample: `Op::process` on `Lt` with two non-numeric
operands silently returns `Ok(Null)` (the catch-all arm) instead of failing
with `NotNumeric`. -/
theorem C5_counterexample :
    Op.process .lt (.value (.str "a")) (.value (.str "b")) = .ok (.value .nil) ∧
    Op.process .lt (.value (.str "a")) (.value (.str "b")) ≠ .error .notNumeric :=
  ⟨rfl, fun h => Except.noConfusion h⟩

/-- Claim C5 (amended): `Op::process` does not compare on `Eq`..`Ge` — all
six fall into the catch-all arm returning `Ok(Null)` for every pair of
operands, never failing `NotNumeric`; the numeric comparison dispatch
exists in `Predicate::test`, whose `Eq`..`Ge` arms convert the tested value
to a `Number` (failing with `NotNumeric` on every non-numeric variant) and
compare via `val_cmp`. -/
theorem C5_comparison_amended (a b : Arg) (n : NumberLike) (s : String)
    (bo : Bool) (i : Int) (d : Rat) (l : List MetaVal)
    (m : List (String × MetaVal)) :
    Op.process .eq a b = .ok (.value .nil) ∧
    Op.process .ne a b = .ok (.value .nil) ∧
    Op.process .lt a b = .ok (.value .nil) ∧
    Op.process .le a b = .ok (.value .nil) ∧
    Op.process .gt a b = .ok (.value .nil) ∧
    Op.process .ge a b = .ok (.value .nil) ∧
    Predicate.test (.eq n) (.str s) = .error .notNumeric ∧
    Predicate.test (.ne n) (.bul bo) = .error .notNumeric ∧
    Predicate.test (.lt n) .nil = .error .notNumeric ∧
    Predicate.test (.le n) (.seq l) = .error .notNumeric ∧
    Predicate.test (.gt n) (.map m) = .error .notNumeric ∧
    Predicate.test (.ge n) (.str s) = .error .notNumeric ∧
    Predicate.test (.eq n) (.int i)
      = .ok ((NumberLike.integer i).val_cmp n == Ordering.eq) ∧
    Predicate.test (.ne n) (.int i)
      = .ok ((NumberLike.integer i).val_cmp n != Ordering.eq) ∧
    Predicate.test (.lt n) (.int i)
      = .ok ((NumberLike.integer i).val_cmp n == Ordering.lt) ∧
    Predicate.test (.le n) (.dec d)
      = .ok ((NumberLike.decimal d).val_cmp n != Ordering.gt) ∧
    Predicate.test (.gt n) (.dec d)
      = .ok ((NumberLike.decimal d).val_cmp n == Ordering.gt) ∧
    Predicate.test (.ge n) (.dec d)
      = .ok ((NumberLike.decimal d).val_cmp n != Ordering.lt) := by
  refine ⟨rfl, rfl, rfl, rfl, rfl, rfl, ?_, ?_, ?_, ?_, ?_, ?_,
    ?_, ?_, ?_, ?_, ?_, ?_⟩ <;>
    simp [Predicate.test, MetaVal.toNumberLike, Except.map]

/-! ### Claim C1 (eager/lazy terminal-operation equivalence) -/

/-- Claim C1: for every finite list of values, each terminal operation
(`collect`, `count`, `sum`, `prod`, `all_equal`, and — on non-empty input —
`first`, `last`, `min_in`, `max_in`) yields the same result on the eager
`Sequence` representation and on the lazy `Producer` representation of that
list; on empty input, the operations that fail do so with `EmptySequence`
on the eager path and `EmptyProducer` on the lazy path. -/
theorem C1_terminal_equivalence (s : List MetaVal) :
    (IterableLike.sequence s).collect = (IterableLike.producer (s.map .ok)).collect ∧
    (IterableLike.sequence s).count = (IterableLike.producer (s.map .ok)).count ∧
    (IterableLike.sequence s).sum = (IterableLike.producer (s.map .ok)).sum ∧
    (IterableLike.sequence s).prod = (IterableLike.producer (s.map .ok)).prod ∧
    (IterableLike.sequence s).all_equal = (IterableLike.producer (s.map .ok)).all_equal ∧
    (s ≠ [] →
      (IterableLike.sequence s).first = (IterableLike.producer (s.map .ok)).first ∧
      (IterableLike.sequence s).last = (IterableLike.producer (s.map .ok)).last ∧
      (IterableLike.sequence s).min_in = (IterableLike.producer (s.map .ok)).min_in ∧
      (IterableLike.sequence s).max_in = (IterableLike.producer (s.map .ok)).max_in) ∧
    (s = [] →
      (IterableLike.sequence s).first = .error .emptySequence ∧
      (IterableLike.producer (s.map .ok)).first = .error .emptyProducer ∧
      (IterableLike.sequence s).last = .error .emptySequence ∧
      (IterableLike.producer (s.map .ok)).last = .error .emptyProducer ∧
      (IterableLike.sequence s).min_in = .error .emptySequence ∧
      (IterableLike.producer (s.map .ok)).min_in = .error .emptyProducer ∧
      (IterableLike.sequence s).max_in = .error .emptySequence ∧
      (IterableLike.producer (s.map .ok)).max_in = .error .emptyProducer) := by
  refine ⟨(collectTrace_map_ok s).symm, (countTrace_map_ok s).symm, rfl, rfl, rfl,
    fun hne => ?_, fun he => ?_⟩
  · obtain ⟨v, rest, rfl⟩ : ∃ v rest, s = v :: rest := by
      cases s with
      | nil => exact absurd rfl hne
      | cons v rest => exact ⟨v, rest, rfl⟩
    refine ⟨rfl, ?_, rfl, rfl⟩
    simp only [IterableLike.last, lastTrace_map_ok]
    cases h : (v :: rest).getLast? with
    | some w => rfl
    | none => simp at h
  · subst he
    exact ⟨rfl, rfl, rfl, rfl, rfl, rfl, rfl, rfl⟩

/-- Claim C1, witness: the equivalences at a non-empty input and the
distinct empty-input error kinds at the empty input. -/
theorem C1_terminal_equivalence_witness :
    (IterableLike.sequence [.int 1]).first
      = (IterableLike.producer [.ok (.int 1)]).first ∧
    (IterableLike.sequence [.int 1]).min_in
      = (IterableLike.producer [.ok (.int 1)]).min_in ∧
    (IterableLike.sequence []).first = .error .emptySequence ∧
    (IterableLike.producer []).first = .error .emptyProducer ∧
    (IterableLike.sequence []).min_in = .error .emptySequence ∧
    (IterableLike.producer []).min_in = .error .emptyProducer :=
  ⟨((C1_terminal_equivalence [.int 1]).2.2.2.2.2.1 (by simp)).1,
   ((C1_terminal_equivalence [.int 1]).2.2.2.2.2.1 (by simp)).2.2.1,
   ((C1_terminal_equivalence []).2.2.2.2.2.2 rfl).1,
   ((C1_terminal_equivalence []).2.2.2.2.2.2 rfl).2.1,
   ((C1_terminal_equivalence []).2.2.2.2.2.2 rfl).2.2.2.2.1,
   ((C1_terminal_equivalence []).2.2.2.2.2.2 rfl).2.2.2.2.2.1⟩

/-! ### Claim C8 (idempotence of dedup and unique) -/

/-- Value-level form of `dedupRun` on an error-free upstream (proof
device: `dedupRun` specializes to it on pure traces). -/
def dedupPure (last : Option MetaVal) : List MetaVal → List MetaVal
  | [] => []
  | v :: rest =>
    match last with
    | some w =>
      if MetaVal.beq w v then dedupPure last rest
      else v :: dedupPure (some v) rest
    | none => v :: dedupPure (some v) rest

/-- Value-level form of `uniqueRun` on an error-free upstream (proof
device: `uniqueRun` specializes to it on pure traces). -/
def uniquePure (seen : List MetaVal) : List MetaVal → List MetaVal
  | [] => []
  | v :: rest =>
    if seenContains seen v then uniquePure seen rest
    else v :: uniquePure (v :: seen) rest

/-- On an error-free trace, `dedupRun` is the pure consecutive dedup. -/
theorem dedupRun_map_ok (l : List MetaVal) : ∀ last : Option MetaVal,
    dedupRun last (l.map .ok) = (dedupPure last l).map .ok := by
  induction l with
  | nil => intro last; rfl
  | cons v rest ih =>
    intro last
    cases last with
    | none => simp [dedupRun, dedupPure, ih]
    | some w =>
      by_cases hb : MetaVal.beq w v <;>
        simp [dedupRun, dedupPure, hb, ih]

/-- The pure consecutive dedup is idempotent (for any remembered value). -/
theorem dedupPure_idem (l : List MetaVal) : ∀ last : Option MetaVal,
    dedupPure last (dedupPure last l) = dedupPure last l := by
  induction l with
  | nil => intro last; rfl
  | cons v rest ih =>
    intro last
    cases last with
    | none => simp [dedupPure, ih (some v)]
    | some w =>
      by_cases hb : MetaVal.beq w v
      · simp [dedupPure, hb, ih (some w)]
      · simp [dedupPure, hb, ih (some v)]

/-- On an error-free trace, `uniqueRun` is the pure global unique. -/
theorem uniqueRun_map_ok (l : List MetaVal) : ∀ seen : List MetaVal,
    uniqueRun seen (l.map .ok) = (uniquePure seen l).map .ok := by
  induction l with
  | nil => intro seen; rfl
  | cons v rest ih =>
    intro seen
    by_cases hs : seenContains seen v <;>
      simp [uniqueRun, uniquePure, hs, ih]

/-- The pure global unique is idempotent (for any seen-set). -/
theorem uniquePure_idem (l : List MetaVal) : ∀ seen : List MetaVal,
    uniquePure seen (uniquePure seen l) = uniquePure seen l := by
  induction l with
  | nil => intro seen; rfl
  | cons v rest ih =>
    intro seen
    by_cases hs : seenContains seen v
    · simp [uniquePure, hs, ih seen]
    · simp [uniquePure, hs, ih (v :: seen)]

/-- Claim C8: on every finite error-free input, `dedup` and `unique` are
idempotent — re-running them on their own output (both at the
`IterableLike` level and at the adaptor-trace level) is a no-op. -/
theorem C8_idempotence (l : List MetaVal) :
    ((IterableLike.sequence l).dedup >>= IterableLike.dedup)
      = (IterableLike.sequence l).dedup ∧
    ((IterableLike.sequence l).unique >>= IterableLike.unique)
      = (IterableLike.sequence l).unique ∧
    dedupRun none (dedupRun none (l.map .ok)) = dedupRun none (l.map .ok) ∧
    uniqueRun [] (uniqueRun [] (l.map .ok)) = uniqueRun [] (l.map .ok) := by
  have hd : (IterableLike.sequence l).dedup = .ok (.sequence (dedupPure none l)) := by
    simp [IterableLike.dedup, dedupRun_map_ok, collectTrace_map_ok, Except.map]
  have hu : (IterableLike.sequence l).unique = .ok (.sequence (uniquePure [] l)) := by
    simp [IterableLike.unique, uniqueRun_map_ok, collectTrace_map_ok, Except.map]
  have hd2 : (IterableLike.sequence (dedupPure none l)).dedup
      = .ok (.sequence (dedupPure none l)) := by
    simp [IterableLike.dedup, dedupRun_map_ok, collectTrace_map_ok, Except.map,
      dedupPure_idem]
  have hu2 : (IterableLike.sequence (uniquePure [] l)).unique
      = .ok (.sequence (uniquePure [] l)) := by
    simp [IterableLike.unique, uniqueRun_map_ok, collectTrace_map_ok, Except.map,
      uniquePure_idem]
  refine ⟨?_, ?_, ?_, ?_⟩
  · rw [hd]; simpa using hd2
  · rw [hu]; simpa using hu2
  · rw [dedupRun_map_ok l none, dedupRun_map_ok (dedupPure none l) none,
      dedupPure_idem l none]
  · rw [uniqueRun_map_ok l [], uniqueRun_map_ok (uniquePure [] l) [],
      uniquePure_idem l []]

/-! ### Claim C6 (sum / prod seeds and numeric promotion) -/

/-- Whether a value converts to a `NumberLike` (is `Int` or `Dec`). -/
def MetaVal.isNumeric : MetaVal → Bool
  | .int _ => true
  | .dec _ => true
  | _ => false

/-- Whether a value is a `Dec`. -/
def MetaVal.isDec : MetaVal → Bool
  | .dec _ => true
  | _ => false

/-- The sum fold over integers only stays an integer, accumulating with
integer addition. -/
theorem sumFold_int (l : List Int) : ∀ acc : Int,
    sumProdFold .sum (.integer acc) ((l.map MetaVal.int).map .ok)
      = .ok (.integer (l.foldl (· + ·) acc)) := by
  induction l with
  | nil => intro acc; rfl
  | cons i rest ih =>
    intro acc
    simpa [sumProdFold, MetaVal.toNumberLike, NumberLike.add] using ih (acc + i)

/-- The product fold over integers only stays an integer, accumulating with
integer multiplication. -/
theorem prodFold_int (l : List Int) : ∀ acc : Int,
    sumProdFold .prod (.integer acc) ((l.map MetaVal.int).map .ok)
      = .ok (.integer (l.foldl (· * ·) acc)) := by
  induction l with
  | nil => intro acc; rfl
  | cons i rest ih =>
    intro acc
    simpa [sumProdFold, MetaVal.toNumberLike, NumberLike.mul] using ih (acc * i)

/-- A decimal accumulator stays decimal across the fold, whichever flag,
as long as every remaining element is numeric. -/
theorem sumProdFold_decimal_acc (flag : SumProd) (l : List MetaVal) :
    ∀ q : Rat, (∀ v ∈ l, v.isNumeric = true) →
    ∃ q', sumProdFold flag (.decimal q) (l.map .ok) = .ok (.decimal q') := by
  induction l with
  | nil => intro q _; exact ⟨q, rfl⟩
  | cons v rest ih =>
    intro q hnum
    have hv := hnum v (by simp)
    have hrest : ∀ w ∈ rest, w.isNumeric = true :=
      fun w hw => hnum w (by simp [hw])
    cases v with
    | int i =>
      cases flag <;>
        simpa [sumProdFold, MetaVal.toNumberLike, NumberLike.add,
          NumberLike.mul, NumberLike.toRat] using ih _ hrest
    | dec d =>
      cases flag <;>
        simpa [sumProdFold, MetaVal.toNumberLike, NumberLike.add,
          NumberLike.mul, NumberLike.toRat] using ih _ hrest
    | nil => simp [MetaVal.isNumeric] at hv
    | str _ => simp [MetaVal.isNumeric] at hv
    | seq _ => simp [MetaVal.isNumeric] at hv
    | map _ => simp [MetaVal.isNumeric] at hv
    | bul _ => simp [MetaVal.isNumeric] at hv

/-- If every element is numeric and at least one is a decimal, the fold
result is a decimal, from any accumulator. -/
theorem sumProdFold_dec_present (flag : SumProd) (l : List MetaVal) :
    ∀ acc : NumberLike, (∀ v ∈ l, v.isNumeric = true) →
    (∃ v ∈ l, v.isDec = true) →
    ∃ q', sumProdFold flag acc (l.map .ok) = .ok (.decimal q') := by
  induction l with
  | nil => intro acc _ hex; simp at hex
  | cons v rest ih =>
    intro acc hnum hex
    have hv := hnum v (by simp)
    have hrest : ∀ w ∈ rest, w.isNumeric = true :=
      fun w hw => hnum w (by simp [hw])
    cases v with
    | dec d =>
      have hdec : ∃ q0, (match flag with
          | SumProd.sum => acc.add (.decimal d)
          | SumProd.prod => acc.mul (.decimal d)) = .decimal q0 := by
        cases flag <;> cases acc <;>
          simp [NumberLike.add, NumberLike.mul, NumberLike.toRat]
      obtain ⟨q0, hq0⟩ := hdec
      have := sumProdFold_decimal_acc flag rest q0 hrest
      obtain ⟨q', hq'⟩ := this
      refine ⟨q', ?_⟩
      simpa [sumProdFold, MetaVal.toNumberLike, hq0] using hq'
    | int i =>
      have hex' : ∃ w ∈ rest, w.isDec = true := by
        obtain ⟨w, hw, hwd⟩ := hex
        cases hw with
        | head => simp [MetaVal.isDec] at hwd
        | tail _ hmem => exact ⟨w, hmem, hwd⟩
      cases flag <;>
        simpa [sumProdFold, MetaVal.toNumberLike] using
          ih _ hrest hex'
    | nil => simp [MetaVal.isNumeric] at hv
    | str _ => simp [MetaVal.isNumeric] at hv
    | seq _ => simp [MetaVal.isNumeric] at hv
    | map _ => simp [MetaVal.isNumeric] at hv
    | bul _ => simp [MetaVal.isNumeric] at hv

/-- If some element is non-numeric, the fold fails with `NotNumeric`, from
any accumulator. -/
theorem sumProdFold_non_numeric (flag : SumProd) (l : List MetaVal) :
    ∀ acc : NumberLike, (¬ ∀ v ∈ l, v.isNumeric = true) →
    sumProdFold flag acc (l.map .ok) = .error .notNumeric := by
  induction l with
  | nil => intro acc h; exact absurd (by simp) h
  | cons v rest ih =>
    intro acc h
    cases hv : v.isNumeric with
    | false =>
      cases v <;> simp [MetaVal.isNumeric] at hv <;>
        simp [sumProdFold, MetaVal.toNumberLike]
    | true =>
      have hrest : ¬ ∀ w ∈ rest, w.isNumeric = true := by
        intro hall
        exact h (by
          intro w hw
          cases hw with
          | head => exact hv
          | tail _ hmem => exact hall w hmem)
      cases v with
      | int i =>
        cases flag <;>
          simpa [sumProdFold, MetaVal.toNumberLike] using ih _ hrest
      | dec d =>
        cases flag <;>
          simpa [sumProdFold, MetaVal.toNumberLike] using ih _ hrest
      | nil => simp [MetaVal.isNumeric] at hv
      | str _ => simp [MetaVal.isNumeric] at hv
      | seq _ => simp [MetaVal.isNumeric] at hv
      | map _ => simp [MetaVal.isNumeric] at hv
      | bul _ => simp [MetaVal.isNumeric] at hv

/-- Claim C6: `sum([])` is exactly `Integer(0)` and `prod([])` exactly
`Integer(1)`; a fold over only integers stays `Integer` (accumulating the
integer sum/product); any decimal among numeric elements promotes the
whole result to `Decimal`; and any non-numeric element makes `sum`/`prod`
fail with `NotNumeric`. -/
theorem C6_sum_prod (l : List Int) (m : List MetaVal) :
    (IterableLike.sequence []).sum = .ok (.integer 0) ∧
    (IterableLike.sequence []).prod = .ok (.integer 1) ∧
    (IterableLike.sequence (l.map .int)).sum
      = .ok (.integer (l.foldl (· + ·) 0)) ∧
    (IterableLike.sequence (l.map .int)).prod
      = .ok (.integer (l.foldl (· * ·) 1)) ∧
    ((∀ v ∈ m, v.isNumeric = true) → (∃ v ∈ m, v.isDec = true) →
      (∃ q, (IterableLike.sequence m).sum = .ok (.decimal q)) ∧
      (∃ q, (IterableLike.sequence m).prod = .ok (.decimal q))) ∧
    ((¬ ∀ v ∈ m, v.isNumeric = true) →
      (IterableLike.sequence m).sum = .error .notNumeric ∧
      (IterableLike.sequence m).prod = .error .notNumeric) := by
  refine ⟨rfl, rfl, sumFold_int l 0, prodFold_int l 1,
    fun hnum hex => ⟨?_, ?_⟩, fun h => ⟨?_, ?_⟩⟩
  · exact sumProdFold_dec_present .sum m _ hnum hex
  · exact sumProdFold_dec_present .prod m _ hnum hex
  · exact sumProdFold_non_numeric .sum m _ h
  · exact sumProdFold_non_numeric .prod m _ h

/-- Claim C6, witness: concrete instances — integer-only products stay
integers, one decimal promotes, a boolean fails `NotNumeric`. -/
theorem C6_sum_prod_witness :
    (IterableLike.sequence ([(2 : Int), 3].map .int)).sum
      = .ok (.integer 5) ∧
    ((∃ q, (IterableLike.sequence [.int 1, .dec 1]).sum = .ok (.decimal q)) ∧
      (∃ q, (IterableLike.sequence [.int 1, .dec 1]).prod = .ok (.decimal q))) ∧
    (IterableLike.sequence [.int 1, .bul true]).sum = .error .notNumeric :=
  ⟨(C6_sum_prod [2, 3] []).2.2.1,
   (C6_sum_prod [] [.int 1, .dec 1]).2.2.2.2.1
     (by simp [MetaVal.isNumeric]) ⟨.dec 1, by simp, rfl⟩,
   ((C6_sum_prod [] [.int 1, .bul true]).2.2.2.2.2
     (by simp [MetaVal.isNumeric])).1⟩

/-! ### Claim C10 (sort comparator on equal-valued Int/Dec) -/

/-- Claim C10: `smart_sort_by` returns `Equal` in both directions for an
`Int` and a `Dec` of equal numeric value, and the stable sort therefore
keeps such equal-valued mixed numeric elements in their relative input
order (so `sort` is a well-defined deterministic function of the input
even in the spec's open tie-break case). -/
theorem C10_smart_sort (i : Int) :
    smart_sort_by (.int i) (.dec (i : Rat)) = .eq ∧
    smart_sort_by (.dec (i : Rat)) (.int i) = .eq ∧
    sortBy smart_sort_by [.int i, .dec (i : Rat)] = [.int i, .dec (i : Rat)] ∧
    sortBy smart_sort_by [.dec (i : Rat), .int i] = [.dec (i : Rat), .int i] ∧
    (IterableLike.sequence [.int i, .dec (i : Rat)]).sort
      = .ok [.int i, .dec (i : Rat)] ∧
    (IterableLike.sequence [.dec (i : Rat), .int i]).sort
      = .ok [.dec (i : Rat), .int i] := by
  have hcmp : cmpRat (i : Rat) (i : Rat) = .eq := by
    simp [cmpRat]
  refine ⟨?_, ?_, ?_, ?_, ?_, ?_⟩ <;>
    simp [IterableLike.sort, IterableLike.rev_sort, IterableLike.collect,
      Except.map, sortBy, insertBy, smart_sort_by, hcmp, Ordering.swap]

end Taggu
